import Mathlib

/-!
Verification of the run-lifecycle registry and output monitor of the
matan_ntfy repository.

The registry (class `Dashboard` in notify-dashboard.py) keeps a Python dict
`runs : run_id -> run record`; Python dicts preserve insertion order, so the
registry is embedded as an association list `RunMap := List (String × Run)`
whose keys are unique in every state the program actually reaches.  Python
strings are compared lexicographically by code point; `pyStrLe` reproduces
that comparison structurally so proofs can evaluate it.  Each handler below
is translated from the corresponding method of notify-dashboard.py.
-/

/-- Lexicographic comparison of character lists by code point, exactly the
comparison Python uses on `str` values (a proper prefix sorts first). -/
def charListLe : List Char → List Char → Bool
  | [], _ => true
  | _ :: _, [] => false
  | a :: as, b :: bs => if a = b then charListLe as bs else decide (a < b)

/-- Python string `<=`, used by `list.sort(key=..., reverse=True)` on
`start_time` fields (ISO timestamps, whose lexicographic order is
chronological order). -/
def pyStrLe (a b : String) : Bool := charListLe a.data b.data

/-- Python `str.lower()` restricted to the ASCII letters that occur in the
category names handled by the dashboard. -/
def pyLower (s : String) : String := ⟨s.data.map Char.toLower⟩

/-- Python substring test `needle in line` on strings. -/
def containsSub (line needle : String) : Bool := decide (needle.data <:+: line.data)

/-- One run record, the value stored in `Dashboard.runs` (created by
`handle_start`).  `status_change_time` and `end_time` start out absent in the
Python dict and are modelled as `Option` fields that start at `none`;
`tmux`, `exit_code` and `wandb_url` are present from creation but may be
`None`. -/
structure Run where
  run_id : String
  command : String
  machine : String
  tmux : Option String
  cwd : String
  start_time : String
  status : String
  triggers : List String
  exit_code : Option Int
  wandb_url : Option String
  status_change_time : Option String
  end_time : Option String
deriving DecidableEq, Repr

/-- The registry map `Dashboard.runs`: an insertion-ordered association list,
mirroring a Python dict (unique keys in every reachable state). -/
abbrev RunMap := List (String × Run)

/-- Dashboard.handle_start (notify-dashboard.py lines 56-75): on a start
event with a non-empty run id, insert-or-overwrite a fresh ONGOING record.
Assigning to an existing dict key keeps its position; a new key is appended. -/
def handle_start (runs : RunMap) (rid command machine : String) (tmux : Option String)
    (cwd timestamp : String) : RunMap :=
  if rid = "" then runs
  else
    let newRun : Run :=
      { run_id := rid, command := command, machine := machine, tmux := tmux, cwd := cwd,
        start_time := timestamp, status := "ongoing", triggers := [], exit_code := none,
        wandb_url := none, status_change_time := none, end_time := none }
    if runs.any (fun p => p.1 == rid) then
      runs.map (fun p => if p.1 = rid then (p.1, newRun) else p)
    else
      runs ++ [(rid, newRun)]

/-- Body of `Dashboard.handle_trigger` for the run record it found
(notify-dashboard.py lines 85-92): append the phrase if unseen, stamp
`status_change_time` only when the status is actually changing, then set the
status to hanging. -/
def trigApply (r : Run) (trigger now : String) : Run :=
  let r1 := if trigger ∈ r.triggers then r else { r with triggers := r.triggers ++ [trigger] }
  let r2 := if r1.status ≠ "hanging" then { r1 with status_change_time := some now } else r1
  { r2 with status := "hanging" }

/-- Dashboard.handle_trigger (notify-dashboard.py lines 77-93): no-op on a
missing run id or an unknown run, otherwise update the run via `trigApply`. -/
def handle_trigger (runs : RunMap) (rid trigger now : String) : RunMap :=
  if rid = "" then runs
  else runs.map (fun p => if p.1 = rid then (p.1, trigApply p.2 trigger now) else p)

/-- Dashboard.handle_wandb (notify-dashboard.py lines 95-116): no-op on a
missing run id or an unknown run, otherwise overwrite `wandb_url`. -/
def handle_wandb (runs : RunMap) (rid : String) (url : Option String) : RunMap :=
  if rid = "" then runs
  else runs.map (fun p => if p.1 = rid then (p.1, { p.2 with wandb_url := url }) else p)

/-- Body of `Dashboard.handle_complete` for the run record it found
(notify-dashboard.py lines 126-144): record exit code and timestamps, then
resolve the final status; the source spells out the hanging and non-hanging
branches separately but they compute the same status. -/
def completeApply (r : Run) (exit_code : Int) (timestamp : String) : Run :=
  let r0 := { r with exit_code := some exit_code, end_time := some timestamp, status_change_time := some timestamp }
  if r0.status = "hanging" then
    (if exit_code = 0 then { r0 with status := "completed" } else { r0 with status := "failed" })
  else
    (if exit_code = 0 then { r0 with status := "completed" } else { r0 with status := "failed" })

/-- Dashboard.handle_complete (notify-dashboard.py lines 118-145): no-op on a
missing run id or an unknown run, otherwise update the run via
`completeApply`. -/
def handle_complete (runs : RunMap) (rid : String) (exit_code : Int) (timestamp : String) :
    RunMap :=
  if rid = "" then runs
  else runs.map (fun p => if p.1 = rid then (p.1, completeApply p.2 exit_code timestamp) else p)

/-- Dashboard.flush_category (notify-dashboard.py lines 147-154): collect the
ids of runs whose status equals the argument, delete each collected id from
the dict, and report how many were collected. -/
def flush_category (runs : RunMap) (status : String) : RunMap × Nat :=
  let to_remove := (runs.filter (fun p => p.2.status == status)).map Prod.fst
  (to_remove.foldl (fun m rid => m.filter (fun p => !(p.1 == rid))) runs, to_remove.length)

/-- Dashboard.flush_all_finished (notify-dashboard.py lines 156-164): same
deletion loop for runs whose status is completed or failed. -/
def flush_all_finished (runs : RunMap) : RunMap × Nat :=
  let to_remove := (runs.filter
      (fun p => p.2.status == "completed" || p.2.status == "failed")).map Prod.fst
  (to_remove.foldl (fun m rid => m.filter (fun p => !(p.1 == rid))) runs, to_remove.length)

/-- Descending `start_time` order on run records, the sort relation of
`lst.sort(key=lambda x: x.get('start_time', ''), reverse=True)`.  Python's
sort is stable and so is `List.insertionSort`, in the same direction. -/
def runDescLe (a b : Run) : Prop := pyStrLe b.start_time a.start_time = true

instance : DecidableRel runDescLe := fun _ _ => Bool.decEq _ _

/-- Result of `Dashboard.categorize_runs`, the dict keyed ONGOING / HANGING /
FAILED / COMPLETED returned at notify-dashboard.py lines 192-197. -/
structure Categories where
  ongoing : List Run
  hanging : List Run
  failed : List Run
  completed : List Run
deriving DecidableEq, Repr

/-- Loop body of `Dashboard.categorize_runs` (notify-dashboard.py lines
174-186): copy the record, stamp the dict key into `run_id`, and append the
copy to the list matching its status (records with any other status are
dropped). -/
def categorize_step (acc : Categories) (p : String × Run) : Categories :=
  let r := { p.2 with run_id := p.1 }
  if r.status = "ongoing" then { acc with ongoing := acc.ongoing ++ [r] }
  else if r.status = "hanging" then { acc with hanging := acc.hanging ++ [r] }
  else if r.status = "failed" then { acc with failed := acc.failed ++ [r] }
  else if r.status = "completed" then { acc with completed := acc.completed ++ [r] }
  else acc

/-- Dashboard.categorize_runs (notify-dashboard.py lines 166-197): bucket the
runs by status, sort each bucket by `start_time` descending, and cap each
bucket at its first 6 entries. -/
def categorize_runs (runs : RunMap) : Categories :=
  let c := runs.foldl categorize_step ⟨[], [], [], []⟩
  { ongoing := (c.ongoing.insertionSort runDescLe).take 6,
    hanging := (c.hanging.insertionSort runDescLe).take 6,
    failed := (c.failed.insertionSort runDescLe).take 6,
    completed := (c.completed.insertionSort runDescLe).take 6 }

/-- Per-category total shown by `Dashboard.display` (notify-dashboard.py
lines 293-294): the exact number of runs whose status equals the lowercased
category name, independent of the display cap. -/
def total_count (runs : RunMap) (category_name : String) : Nat :=
  runs.countP (fun p => p.2.status == pyLower category_name)

/-- Sort key used by `Dashboard.delete_run_by_index`
(notify-dashboard.py line 225): `self.runs[rid].get('start_time', '')`. -/
def start_time_of (runs : RunMap) (rid : String) : String :=
  ((List.lookup rid runs).map Run.start_time).getD ""

/-- Descending `start_time` order on run ids, as used on the id list sorted
at notify-dashboard.py line 225. -/
def ridDescLe (runs : RunMap) (a b : String) : Prop :=
  pyStrLe (start_time_of runs b) (start_time_of runs a) = true

instance (runs : RunMap) : DecidableRel (ridDescLe runs) := fun _ _ => Bool.decEq _ _

/-- Ranked id list recomputed by `Dashboard.delete_run_by_index`
(notify-dashboard.py lines 223-225): current members of the category, sorted
by `start_time` descending. -/
def ranked_category (runs : RunMap) (category : String) : List String :=
  ((runs.filter (fun p => p.2.status == pyLower category)).map Prod.fst).insertionSort
    (ridDescLe runs)

/-- Dashboard.delete_run_by_index (notify-dashboard.py lines 218-256): if the
one-based index falls inside the freshly ranked category list, delete the run
at that position and return success, otherwise change nothing and report
failure. -/
def delete_run_by_index (runs : RunMap) (category : String) (index : Int) : RunMap × Bool :=
  let sorted := ranked_category runs category
  if 0 ≤ index - 1 ∧ index - 1 < (sorted.length : Int) then
    match sorted[(index - 1).toNat]? with
    | some rid => (runs.filter (fun p => !(p.1 == rid)), true)
    | none => (runs, false)
  else (runs, false)

/-- Events the launch monitor emits while tailing output: `trigger` carries
the matched trigger phrase (`send_json_notification` at notify.py line 155),
`wandb` the side-channel URL extracted from the first matching line
(notify.py line 174). -/
inductive MonitorEvent where
  | trigger (phrase : String) : MonitorEvent
  | wandb (url : String) : MonitorEvent
deriving DecidableEq, Repr

/-- State carried across iterations of `monitor_output_and_process`
(notify.py lines 104-105): the dedup set of already-fired trigger phrases and
the already-detected side-channel URL, if any. -/
structure MonitorState where
  seen_triggers : List String
  wandb_url : Option String
deriving DecidableEq, Repr

/-- Body of the trigger scan for one configured phrase (notify.py lines
136-137): if the line contains the phrase and it has not fired yet, add it
to the dedup set and emit a trigger event. -/
def trig_scan_step (line : String) (acc : MonitorState × List MonitorEvent)
    (trig : String) : MonitorState × List MonitorEvent :=
  if containsSub line trig && !(acc.1.seen_triggers.contains trig) then
    ({ acc.1 with seen_triggers := acc.1.seen_triggers ++ [trig] },
      acc.2 ++ [MonitorEvent.trigger trig])
  else acc

/-- Trigger scan of one output line (notify.py lines 135-157): for each
configured phrase, if the line contains it and it has not fired yet, add it
to the dedup set and emit a trigger event. -/
def check_triggers (triggers : List String) (line : String)
    (st : MonitorState) : MonitorState × List MonitorEvent :=
  triggers.foldl (trig_scan_step line) (st, [])

/-- Full scan of one output line (notify.py lines 131-176): the trigger scan
followed by the side-channel URL check, which only runs while no URL has been
detected yet.  The regular-expression search
`wandb_pattern.search(line)` is abstracted as the parameter `matchUrl`. -/
def process_line (triggers : List String) (matchUrl : String → Option String)
    (st : MonitorState) (line : String) : MonitorState × List MonitorEvent :=
  let res := check_triggers triggers line st
  match res.1.wandb_url with
  | some u => ({ res.1 with wandb_url := some u }, res.2)
  | none =>
    match matchUrl line with
    | some u => ({ res.1 with wandb_url := some u }, res.2 ++ [MonitorEvent.wandb u])
    | none => res

/-- One iteration of the tailing loop as seen from the event trace: scan the
line just read and append whatever it emitted. -/
def monitor_step (triggers : List String) (matchUrl : String → Option String)
    (acc : MonitorState × List MonitorEvent) (line : String) :
    MonitorState × List MonitorEvent :=
  let res := process_line triggers matchUrl acc.1 line
  (res.1, acc.2 ++ res.2)

/-- Line-scanning core of `monitor_output_and_process` (notify.py lines
102-200): the sequence of lines read from the output file is folded through
`process_line`, starting from an empty dedup set and no URL; the returned
list collects every emitted event in order. -/
def monitor_output_and_process (triggers : List String)
    (matchUrl : String → Option String) (lines : List String) :
    MonitorState × List MonitorEvent :=
  lines.foldl (monitor_step triggers matchUrl) (⟨[], none⟩, [])

/-- Number of trigger events for a given phrase in an emitted event list,
used to state the at-most-once property of the monitor. -/
def countTrig (evs : List MonitorEvent) (p : String) : Nat :=
  evs.countP (fun e => decide (e = MonitorEvent.trigger p))

/-- Number of side-channel URL events in an emitted event list. -/
def countWandb (evs : List MonitorEvent) : Nat :=
  evs.countP (fun e => match e with | MonitorEvent.wandb _ => true | _ => false)

/-- Invariant coupling the monitor state with the events emitted so far:
each phrase has fired exactly once iff it sits in the dedup set, and the
URL event has fired exactly once iff a URL has been recorded. -/
def monitorInv (acc : MonitorState × List MonitorEvent) : Prop :=
  (∀ p, countTrig acc.2 p = if p ∈ acc.1.seen_triggers then 1 else 0)
  ∧ countWandb acc.2 = (if acc.1.wandb_url.isSome then 1 else 0)
  ∧ (∀ u, MonitorEvent.wandb u ∈ acc.2 ↔ acc.1.wandb_url = some u)

/-- Values of the JSON document written by `Dashboard.save_state` and read
back by `Dashboard.load_state`; object fields keep their insertion order,
as `json.dump` does for Python dicts. -/
inductive Json where
  | null : Json
  | str (s : String) : Json
  | num (n : Int) : Json
  | arr (elems : List Json) : Json
  | obj (fields : List (String × Json)) : Json

/-- Lookup of an object field, as `data.get(key)` behaves on a decoded
document. -/
def Json.getField : Json → String → Option Json
  | Json.obj fields, key => (fields.find? (fun p => p.1 == key)).map Prod.snd
  | _, _ => none

/-- Optional string fields (`tmux`, `wandb_url`) serialize as null or a
string. -/
def optStrToJson : Option String → Json
  | none => Json.null
  | some s => Json.str s

/-- JSON image of one run record under `json.dump`: the dict keys in their
creation order (`handle_start`), with `status_change_time` and `end_time`
present only once a handler has set them (they are appended to the dict when
first assigned). -/
def Run.toJson (r : Run) : Json :=
  Json.obj
    ([("run_id", Json.str r.run_id), ("command", Json.str r.command),
      ("machine", Json.str r.machine), ("tmux", optStrToJson r.tmux),
      ("cwd", Json.str r.cwd), ("start_time", Json.str r.start_time),
      ("status", Json.str r.status),
      ("triggers", Json.arr (r.triggers.map Json.str)),
      ("exit_code", match r.exit_code with | none => Json.null | some n => Json.num n),
      ("wandb_url", optStrToJson r.wandb_url)]
     ++ (match r.status_change_time with
         | none => [] | some s => [("status_change_time", Json.str s)])
     ++ (match r.end_time with | none => [] | some s => [("end_time", Json.str s)]))

/-- Decode a JSON value as the string it must be. -/
def Json.asStr : Json → Option String
  | Json.str s => some s
  | _ => none

/-- Decode a JSON value as an optional string (null or string). -/
def jsonToOptStr : Json → Option (Option String)
  | Json.null => some none
  | Json.str s => some (some s)
  | _ => none

/-- Decode a JSON array of strings back into the string list it came from. -/
def decodeStrList : List Json → Option (List String)
  | [] => some []
  | Json.str s :: rest => (decodeStrList rest).map (fun xs => s :: xs)
  | _ => none

/-- Decode the entries of the persisted `runs` object back into the registry
map. -/
def decodeRunEntries (fromRun : Json → Option Run) :
    List (String × Json) → Option RunMap
  | [] => some []
  | (k, j) :: rest =>
    match fromRun j with
    | some r => (decodeRunEntries fromRun rest).map (fun xs => (k, r) :: xs)
    | none => none

/-- Reconstruction of a run record from its JSON image, modelling how
`json.load` gives `load_state` back exactly the dict that `save_state`
passed to `json.dump`. -/
def Run.fromJson (j : Json) : Option Run := do
  let run_id ← (j.getField "run_id").bind Json.asStr
  let command ← (j.getField "command").bind Json.asStr
  let machine ← (j.getField "machine").bind Json.asStr
  let tmux ← (j.getField "tmux").bind jsonToOptStr
  let cwd ← (j.getField "cwd").bind Json.asStr
  let start_time ← (j.getField "start_time").bind Json.asStr
  let status ← (j.getField "status").bind Json.asStr
  let triggers ← match j.getField "triggers" with
    | some (Json.arr xs) => decodeStrList xs
    | _ => none
  let exit_code ← match j.getField "exit_code" with
    | some Json.null => some none
    | some (Json.num n) => some (some n)
    | _ => none
  let wandb_url ← (j.getField "wandb_url").bind jsonToOptStr
  let status_change_time ← match j.getField "status_change_time" with
    | none => some none
    | some (Json.str s) => some (some s)
    | _ => none
  let end_time ← match j.getField "end_time" with
    | none => some none
    | some (Json.str s) => some (some s)
    | _ => none
  pure { run_id := run_id, command := command, machine := machine, tmux := tmux, cwd := cwd, start_time := start_time, status := status, triggers := triggers, exit_code := exit_code, wandb_url := wandb_url, status_change_time := status_change_time, end_time := end_time }

/-- Dashboard.save_state (notify-dashboard.py lines 46-54): the persisted
snapshot is the single document holding the whole run map under the key
`runs`. -/
def save_state (runs : RunMap) : Json :=
  Json.obj [("runs", Json.obj (runs.map (fun p => (p.1, p.2.toJson))))]

/-- Dashboard.load_state (notify-dashboard.py lines 35-44): read the `runs`
key of the snapshot document back into the registry map; `none` models the
exception path in which the snapshot cannot be interpreted. -/
def load_state (doc : Json) : Option RunMap :=
  match doc.getField "runs" with
  | some (Json.obj fields) => decodeRunEntries Run.fromJson fields
  | _ => none


/-- Category list of `categorize_runs` selected by status name, modelling
access to the dict it returns (keys ONGOING / HANGING / FAILED /
COMPLETED, here identified by their lowercase status strings). -/
def getCategory (c : Categories) (s : String) : List Run :=
  if s = "ongoing" then c.ongoing
  else if s = "hanging" then c.hanging
  else if s = "failed" then c.failed
  else if s = "completed" then c.completed
  else []

/-- Current members of one category: the run copies (with the dict key
stamped into `run_id`) whose status equals the given status string. -/
def category_members (runs : RunMap) (s : String) : List Run :=
  (runs.map (fun p => { p.2 with run_id := p.1 })).filter (fun r => r.status == s)

/-! ### Demonstration states used by witnesses and counterexamples -/

def demoOngoing : Run :=
  { run_id := "r1", command := "python train.py", machine := "gpu1", tmux := some "main",
    cwd := "/home/u/proj", start_time := "2024-01-01T00:00:00", status := "ongoing",
    triggers := [], exit_code := none, wandb_url := none, status_change_time := none,
    end_time := none }

def demoHanging : Run :=
  { demoOngoing with status := "hanging", triggers := ["CUDA out of memory"], status_change_time := some "2024-01-01T01:00:00" }

def demoCompleted : Run :=
  { demoOngoing with status := "completed", exit_code := some 0, end_time := some "2024-01-01T02:00:00", status_change_time := some "2024-01-01T02:00:00" }

def demoHang1 : Run :=
  { demoOngoing with status := "hanging", triggers := ["CUDA out of memory"] }

def demoHang2 : Run :=
  { demoOngoing with run_id := "r2", status := "hanging", start_time := "2024-01-02T00:00:00", triggers := ["CUDA out of memory"] }

def demo2 : RunMap := [("r1", demoHang1), ("r2", demoHang2)]

/-! ### Helper lemmas about the association-list embedding of the dict -/


theorem map_update_id (runs : RunMap) (rid : String) (f : Run → Run)
    (h : rid ∉ runs.map Prod.fst) :
    runs.map (fun p => if p.1 = rid then (p.1, f p.2) else p) = runs := by
  have he : ∀ p ∈ runs, (if p.1 = rid then (p.1, f p.2) else p) = p := by
    intro p hp
    rw [if_neg]
    intro hcon
    exact h (hcon ▸ List.mem_map_of_mem Prod.fst hp)
  rw [List.map_congr_left he, List.map_id']

theorem lookup_map_update (runs : RunMap) (rid : String) (f : Run → Run) :
    List.lookup rid (runs.map (fun p => if p.1 = rid then (p.1, f p.2) else p))
      = (List.lookup rid runs).map f := by
  induction runs with
  | nil => rfl
  | cons p t ih =>
    obtain ⟨k, v⟩ := p
    by_cases h : k = rid
    · simp [List.lookup_cons, if_pos h, h]
    · have hne : ¬ rid = k := fun e => h e.symm
      have hbeq : (rid == k) = false := beq_false_of_ne hne
      simp [List.lookup_cons, if_neg h, hbeq, ih]

/-! ### Behaviour of the per-run update bodies -/

theorem trigApply_of_not_hanging (r : Run) (t now : String) (h : r.status ≠ "hanging") :
    trigApply r t now = { r with triggers := if t ∈ r.triggers then r.triggers else r.triggers ++ [t], status_change_time := some now, status := "hanging" } := by
  unfold trigApply
  by_cases ht : t ∈ r.triggers <;> simp [ht, h]

theorem trigApply_of_hanging (r : Run) (t now : String) (h : r.status = "hanging") :
    trigApply r t now = { r with triggers := if t ∈ r.triggers then r.triggers else r.triggers ++ [t] } := by
  unfold trigApply
  by_cases ht : t ∈ r.triggers <;> simp [ht, h]

theorem completeApply_eq (r : Run) (ec : Int) (ts : String) :
    completeApply r ec ts = { r with exit_code := some ec, end_time := some ts, status_change_time := some ts, status := if ec = 0 then "completed" else "failed" } := by
  unfold completeApply
  by_cases h : r.status = "hanging" <;> by_cases he : ec = 0 <;> simp [h, he]

/-! ### Claims about trigger and completion handling -/

/-- C1 counterexample: `handle_trigger` has no terminal-state guard.  On a
registry holding one COMPLETED run, a trigger event for that run moves its
status to HANGING, so a trigger on an already-terminal run is not a status
no-op. -/
theorem trigger_on_terminal_run_changes_status_cex :
    demoCompleted.status = "completed" ∧
    (List.lookup "r1" (handle_trigger [("r1", demoCompleted)] "r1" "CUDA out of memory"
      "2024-01-01T03:00:00")).map Run.status = some "hanging" := by
  constructor
  · rfl
  · decide

/-- C1 (amended): for every registry state and every run whose status is
terminal (FAILED or COMPLETED), applying a trigger event for that run sets
the run's status to HANGING and overwrites `status_change_time` with the
event time: the code resurrects terminal runs. -/
theorem trigger_on_terminal_run_sets_hanging (runs : RunMap) (rid t now : String) (r : Run)
    (hrid : rid ≠ "") (hl : List.lookup rid runs = some r)
    (hterm : r.status = "failed" ∨ r.status = "completed") :
    (List.lookup rid (handle_trigger runs rid t now)).map Run.status = some "hanging" ∧
    (List.lookup rid (handle_trigger runs rid t now)).map Run.status_change_time
      = some (some now) := by
  have hne : r.status ≠ "hanging" := by rcases hterm with h | h <;> rw [h] <;> decide
  unfold handle_trigger
  rw [if_neg hrid, lookup_map_update runs rid (fun x => trigApply x t now), hl]
  simp [trigApply_of_not_hanging r t now hne]

theorem trigger_on_terminal_run_sets_hanging_witness :
    ("r1" : String) ≠ "" ∧
    (List.lookup "r1" (handle_trigger [("r1", demoCompleted)] "r1" "x" "T")).map Run.status
      = some "hanging" :=
  ⟨by decide,
   (trigger_on_terminal_run_sets_hanging [("r1", demoCompleted)] "r1" "x" "T" demoCompleted
     (by decide) (by decide) (Or.inr (by decide))).1⟩

/-- C2 counterexample: `handle_complete` checks only that the run exists, not
that it is non-terminal.  A second completion event with a different exit
code, arriving for an already-COMPLETED run, overwrites its status,
exit_code, end_time and status_change_time. -/
theorem completion_on_terminal_run_mutates_cex :
    demoCompleted.status = "completed" ∧ demoCompleted.exit_code = some 0 ∧
    (List.lookup "r1" (handle_complete [("r1", demoCompleted)] "r1" 1 "2024-01-01T03:00:00"))
      = some { demoCompleted with exit_code := some 1, end_time := some "2024-01-01T03:00:00", status_change_time := some "2024-01-01T03:00:00", status := "failed" } := by
  refine ⟨rfl, rfl, ?_⟩
  decide

/-- C2 (amended): `apply_completion` mutates a run whenever the run exists,
regardless of its current status: it overwrites `exit_code`, `end_time` and
`status_change_time` and resolves the status from the new exit code
(`0 → COMPLETED`, else `FAILED`), also when the run was already terminal. -/
theorem completion_mutates_any_existing_run (runs : RunMap) (rid : String) (ec : Int)
    (ts : String) (r : Run) (hrid : rid ≠ "") (hl : List.lookup rid runs = some r) :
    List.lookup rid (handle_complete runs rid ec ts)
      = some { r with exit_code := some ec, end_time := some ts, status_change_time := some ts, status := if ec = 0 then "completed" else "failed" } := by
  unfold handle_complete
  rw [if_neg hrid, lookup_map_update runs rid (fun x => completeApply x ec ts), hl]
  simp [completeApply_eq]

theorem completion_mutates_any_existing_run_witness :
    ("r1" : String) ≠ "" ∧
    List.lookup "r1" (handle_complete [("r1", demoCompleted)] "r1" 1 "T")
      = some { demoCompleted with exit_code := some 1, end_time := some "T", status_change_time := some "T", status := if (1 : Int) = 0 then "completed" else "failed" } :=
  ⟨by decide,
   completion_mutates_any_existing_run [("r1", demoCompleted)] "r1" 1 "T" demoCompleted
     (by decide) (by decide)⟩

/-- C3: a completion event for an existing run resolves the final status
purely from the exit code, COMPLETED on zero and FAILED on any nonzero
value, for every prior status (in particular both ONGOING and HANGING). -/
theorem completion_exit_code_resolves_status (runs : RunMap) (rid : String) (ec : Int)
    (ts : String) (r : Run) (hrid : rid ≠ "") (hl : List.lookup rid runs = some r) :
    (List.lookup rid (handle_complete runs rid ec ts)).map Run.status
      = some (if ec = 0 then "completed" else "failed") := by
  unfold handle_complete
  rw [if_neg hrid, lookup_map_update runs rid (fun x => completeApply x ec ts), hl]
  simp [completeApply_eq]

theorem completion_exit_code_resolves_status_witness :
    (List.lookup "r1" (handle_complete [("r1", demoOngoing)] "r1" 0 "T")).map Run.status
      = some (if (0 : Int) = 0 then "completed" else "failed") ∧
    (List.lookup "r1" (handle_complete [("r1", demoHanging)] "r1" 17 "T")).map Run.status
      = some (if (17 : Int) = 0 then "completed" else "failed") ∧
    (List.lookup "r1" (handle_complete [("r1", demoHanging)] "r1" 0 "T")).map Run.status
      = some (if (0 : Int) = 0 then "completed" else "failed") :=
  ⟨completion_exit_code_resolves_status [("r1", demoOngoing)] "r1" 0 "T" demoOngoing
     (by decide) (by decide),
   completion_exit_code_resolves_status [("r1", demoHanging)] "r1" 17 "T" demoHanging
     (by decide) (by decide),
   completion_exit_code_resolves_status [("r1", demoHanging)] "r1" 0 "T" demoHanging
     (by decide) (by decide)⟩

/-- C5: an event carrying a run id that is not in the registry is a silent
no-op for the trigger, url and completion handlers: the run map is returned
exactly unchanged and no entry is created. -/
theorem events_on_unknown_run_id_noop (runs : RunMap) (rid t now : String)
    (url : Option String) (ec : Int) (ts : String) (h : rid ∉ runs.map Prod.fst) :
    handle_trigger runs rid t now = runs ∧ handle_wandb runs rid url = runs ∧
    handle_complete runs rid ec ts = runs := by
  refine ⟨?_, ?_, ?_⟩
  · unfold handle_trigger
    by_cases hrid : rid = ""
    · rw [if_pos hrid]
    · rw [if_neg hrid]
      exact map_update_id runs rid (fun x => trigApply x t now) h
  · unfold handle_wandb
    by_cases hrid : rid = ""
    · rw [if_pos hrid]
    · rw [if_neg hrid]
      exact map_update_id runs rid (fun x => { x with wandb_url := url }) h
  · unfold handle_complete
    by_cases hrid : rid = ""
    · rw [if_pos hrid]
    · rw [if_neg hrid]
      exact map_update_id runs rid (fun x => completeApply x ec ts) h

theorem events_on_unknown_run_id_noop_witness :
    ("r2" : String) ∉ ([("r1", demoOngoing)] : RunMap).map Prod.fst ∧
    (handle_trigger [("r1", demoOngoing)] "r2" "x" "T" = [("r1", demoOngoing)] ∧
     handle_wandb [("r1", demoOngoing)] "r2" (some "u") = [("r1", demoOngoing)] ∧
     handle_complete [("r1", demoOngoing)] "r2" 0 "T" = [("r1", demoOngoing)]) :=
  ⟨by decide,
   events_on_unknown_run_id_noop [("r1", demoOngoing)] "r2" "x" "T" (some "u") 0 "T"
     (by decide)⟩

/-! ### Claim C4: sequences of trigger events -/

theorem handle_trigger_singleton (rid : String) (h : rid ≠ "") (r : Run) (t now : String) :
    handle_trigger [(rid, r)] rid t now = [(rid, trigApply r t now)] := by
  unfold handle_trigger
  rw [if_neg h]
  simp

theorem fold_trigger_hanging (rid : String) (h : rid ≠ "") (evs : List (String × String)) :
    ∀ r : Run, r.status = "hanging" → r.triggers.Nodup →
    ∃ tl, evs.foldl (fun m ev => handle_trigger m rid ev.1 ev.2) [(rid, r)]
        = [(rid, { r with triggers := tl })]
      ∧ tl.Nodup ∧ (∀ t, t ∈ tl ↔ (t ∈ r.triggers ∨ t ∈ evs.map Prod.fst)) := by
  induction evs with
  | nil =>
    intro r hst hnd
    exact ⟨r.triggers, by simp, hnd, by simp⟩
  | cons e rest ih =>
    intro r hst hnd
    rw [List.foldl_cons, handle_trigger_singleton rid h, trigApply_of_hanging _ _ _ hst]
    have hst1 : ({ r with triggers := if e.1 ∈ r.triggers then r.triggers else r.triggers ++ [e.1] } : Run).status = "hanging" := hst
    have hnd1 : ({ r with triggers := if e.1 ∈ r.triggers then r.triggers else r.triggers ++ [e.1] } : Run).triggers.Nodup := by
      by_cases he : e.1 ∈ r.triggers
      · simpa [he] using hnd
      · simp [he, List.nodup_append, hnd]
    obtain ⟨tl, heq, hnd2, hmem⟩ := ih _ hst1 hnd1
    refine ⟨tl, by rw [heq], hnd2, ?_⟩
    intro t
    rw [hmem t]
    by_cases he : e.1 ∈ r.triggers
    · rw [if_pos he]
      simp only [List.map_cons, List.mem_cons]
      constructor
      · rintro (h1 | h1)
        · exact Or.inl h1
        · exact Or.inr (Or.inr h1)
      · rintro (h1 | h1 | h1)
        · exact Or.inl h1
        · exact Or.inl (h1 ▸ he)
        · exact Or.inr h1
    · rw [if_neg he]
      simp only [List.map_cons, List.mem_cons, List.mem_append, List.mem_singleton]
      tauto

/-- C4: starting from a run freshly created by a start event, any non-empty
sequence of trigger events (with arbitrarily repeated phrases) leaves the
registry with that single run HANGING, its trigger list duplicate-free and
holding exactly the distinct phrases of the sequence, and its
`status_change_time` equal to the timestamp of the first trigger — later
triggers, duplicate or not, never reset it. -/
theorem trigger_sequence_dedups_and_stamps_once (rid command machine : String)
    (tmux : Option String) (cwd ts : String) (hrid : rid ≠ "") (e : String × String)
    (rest : List (String × String)) :
    ∃ r : Run,
      ((e :: rest).foldl (fun m ev => handle_trigger m rid ev.1 ev.2)
          (handle_start [] rid command machine tmux cwd ts) = [(rid, r)])
      ∧ r.status = "hanging"
      ∧ r.status_change_time = some e.2
      ∧ r.triggers.Nodup
      ∧ (∀ t, t ∈ r.triggers ↔ t ∈ (e :: rest).map Prod.fst) := by
  have hstart : handle_start [] rid command machine tmux cwd ts
      = [(rid, Run.mk rid command machine tmux cwd ts "ongoing" [] none none none none)] := by
    unfold handle_start
    rw [if_neg hrid]
    rfl
  rw [List.foldl_cons, hstart, handle_trigger_singleton rid hrid,
    trigApply_of_not_hanging _ _ _ (by show ("ongoing" : String) ≠ "hanging"; decide)]
  have hred : ({ Run.mk rid command machine tmux cwd ts "ongoing" [] none none none none with
      triggers := if e.1 ∈ ([] : List String) then ([] : List String) else [] ++ [e.1],
      status_change_time := some e.2, status := "hanging" } : Run)
      = Run.mk rid command machine tmux cwd ts "hanging" [e.1] none none (some e.2) none := by
    simp
  rw [hred]
  obtain ⟨tl, heq, hnd2, hmem⟩ := fold_trigger_hanging rid hrid rest
    (Run.mk rid command machine tmux cwd ts "hanging" [e.1] none none (some e.2) none)
    rfl (by simp)
  refine ⟨_, heq, rfl, rfl, hnd2, ?_⟩
  intro t
  rw [hmem t]
  simp only [List.map_cons, List.mem_cons, List.mem_singleton]
  tauto

theorem trigger_sequence_dedups_witness :
    ("r1" : String) ≠ "" ∧
    ∃ r : Run,
      (([(("OOM" : String), ("T1" : String)), ("OOM", "T2")]).foldl
          (fun m ev => handle_trigger m "r1" ev.1 ev.2)
          (handle_start [] "r1" "c" "m" none "/w" "T0") = [("r1", r)])
      ∧ r.status = "hanging"
      ∧ r.status_change_time = some ("OOM", "T1").2
      ∧ r.triggers.Nodup
      ∧ (∀ t, t ∈ r.triggers ↔ t ∈ ([(("OOM" : String), ("T1" : String)), ("OOM", "T2")].map Prod.fst)) :=
  ⟨by decide,
   trigger_sequence_dedups_and_stamps_once "r1" "c" "m" none "/w" "T0" (by decide)
     ("OOM", "T1") [("OOM", "T2")]⟩

/-! ### Claim C8: flush operations -/

theorem foldl_del_eq (L : List String) (m : RunMap) :
    L.foldl (fun acc rid => acc.filter (fun p => !(p.1 == rid))) m
      = m.filter (fun p => decide (p.1 ∉ L)) := by
  induction L generalizing m with
  | nil => simp
  | cons a t ih =>
    rw [List.foldl_cons, ih, List.filter_filter]
    apply List.filter_congr
    intro p _
    by_cases h1 : p.1 = a
    · subst h1
      simp
    · have hb : (p.1 == a) = false := beq_false_of_ne h1
      by_cases h2 : p.1 ∈ t <;> simp [hb, h1, h2]

theorem entry_eq_of_keys_nodup {runs : RunMap} (h : (runs.map Prod.fst).Nodup)
    {p q : String × Run} (hp : p ∈ runs) (hq : q ∈ runs) (hk : p.1 = q.1) : p = q :=
  List.inj_on_of_nodup_map h hp hq hk

theorem to_remove_decide_iff {runs : RunMap} (h : (runs.map Prod.fst).Nodup)
    (f : String × Run → Bool) {p : String × Run} (hp : p ∈ runs) :
    decide (p.1 ∉ (runs.filter f).map Prod.fst) = !(f p) := by
  cases hf : f p
  · have hnm : p.1 ∉ (runs.filter f).map Prod.fst := by
      intro hcon
      rw [List.mem_map] at hcon
      obtain ⟨q, hq, hqk⟩ := hcon
      rw [List.mem_filter] at hq
      have heq : q = p := entry_eq_of_keys_nodup h hq.1 hp hqk
      rw [heq] at hq
      rw [hq.2] at hf
      cases hf
    simp [hnm]
  · have hm : p.1 ∈ (runs.filter f).map Prod.fst :=
      List.mem_map.mpr ⟨p, List.mem_filter.mpr ⟨hp, hf⟩, rfl⟩
    simp [hm]

theorem flush_category_eq (runs : RunMap) (s : String) (h : (runs.map Prod.fst).Nodup) :
    flush_category runs s
      = (runs.filter (fun p => !(p.2.status == s)), runs.countP (fun p => p.2.status == s)) := by
  unfold flush_category
  refine Prod.ext ?_ ?_
  · show List.foldl _ runs _ = _
    rw [foldl_del_eq]
    apply List.filter_congr
    intro p hp
    exact to_remove_decide_iff h _ hp
  · show ((runs.filter (fun p => p.2.status == s)).map Prod.fst).length = _
    rw [List.length_map, List.countP_eq_length_filter]

theorem flush_all_finished_eq (runs : RunMap) (h : (runs.map Prod.fst).Nodup) :
    flush_all_finished runs
      = (runs.filter (fun p => !(p.2.status == "completed" || p.2.status == "failed")),
         runs.countP (fun p => p.2.status == "completed" || p.2.status == "failed")) := by
  unfold flush_all_finished
  refine Prod.ext ?_ ?_
  · show List.foldl _ runs _ = _
    rw [foldl_del_eq]
    apply List.filter_congr
    intro p hp
    exact to_remove_decide_iff h _ hp
  · show ((runs.filter
        (fun p => p.2.status == "completed" || p.2.status == "failed")).map Prod.fst).length = _
    rw [List.length_map, List.countP_eq_length_filter]

theorem keys_nodup_of_filter {runs : RunMap} (h : (runs.map Prod.fst).Nodup)
    (f : String × Run → Bool) : ((runs.filter f).map Prod.fst).Nodup :=
  List.Nodup.sublist (List.Sublist.map Prod.fst (List.filter_sublist runs)) h

/-- C8: `flush_category` removes exactly the runs whose status equals the
given status and returns their count; `flush_all_finished` removes exactly
the COMPLETED and FAILED runs and returns their count; and both are
idempotent — repeating the same flush on the resulting registry removes
nothing.  The hypothesis that keys are unique holds in every state a Python
dict can be in. -/
theorem flush_removes_matching_and_idempotent (runs : RunMap) (s : String)
    (h : (runs.map Prod.fst).Nodup) :
    flush_category runs s
      = (runs.filter (fun p => !(p.2.status == s)), runs.countP (fun p => p.2.status == s))
    ∧ flush_category (flush_category runs s).1 s = ((flush_category runs s).1, 0)
    ∧ flush_all_finished runs
      = (runs.filter (fun p => !(p.2.status == "completed" || p.2.status == "failed")),
         runs.countP (fun p => p.2.status == "completed" || p.2.status == "failed"))
    ∧ flush_all_finished (flush_all_finished runs).1 = ((flush_all_finished runs).1, 0) := by
  have h1 := flush_category_eq runs s h
  have h3 := flush_all_finished_eq runs h
  refine ⟨h1, ?_, h3, ?_⟩
  · have hnd : (((flush_category runs s).1).map Prod.fst).Nodup := by
      rw [h1]
      exact keys_nodup_of_filter h _
    rw [flush_category_eq _ s hnd]
    have hz : ((flush_category runs s).1).countP (fun p => p.2.status == s) = 0 := by
      rw [h1, List.countP_eq_zero]
      intro p hp
      rw [List.mem_filter] at hp
      simpa using hp.2
    rw [hz]
    have hfe : ((flush_category runs s).1).filter (fun p => !(p.2.status == s))
        = (flush_category runs s).1 := by
      rw [h1, List.filter_filter]
      apply List.filter_congr
      intro p _
      cases hb : p.2.status == s <;> simp [hb]
    rw [hfe]
  · have hnd : (((flush_all_finished runs).1).map Prod.fst).Nodup := by
      rw [h3]
      exact keys_nodup_of_filter h _
    rw [flush_all_finished_eq _ hnd]
    have hz : ((flush_all_finished runs).1).countP
        (fun p => p.2.status == "completed" || p.2.status == "failed") = 0 := by
      rw [h3, List.countP_eq_zero]
      intro p hp
      rw [List.mem_filter] at hp
      simpa using hp.2
    rw [hz]
    have hfe : ((flush_all_finished runs).1).filter
          (fun p => !(p.2.status == "completed" || p.2.status == "failed"))
        = (flush_all_finished runs).1 := by
      rw [h3, List.filter_filter]
      apply List.filter_congr
      intro p _
      cases hb : (p.2.status == "completed" || p.2.status == "failed") <;> simp [hb]
    rw [hfe]

theorem flush_removes_matching_witness :
    (([(("r1" : String), demoCompleted), ("r2", demoHanging)] : RunMap).map Prod.fst).Nodup ∧
    flush_category [(("r1" : String), demoCompleted), ("r2", demoHanging)] "completed"
      = ([("r2", demoHanging)], 1) ∧
    flush_all_finished [(("r1" : String), demoCompleted), ("r2", demoHanging)]
      = ([("r2", demoHanging)], 1) := by
  have h := flush_removes_matching_and_idempotent
    [("r1", demoCompleted), ("r2", demoHanging)] "completed" (by decide)
  exact ⟨by decide, by rw [h.1]; decide, by rw [h.2.2.1]; decide⟩

/-! ### Claim C6: deletion by category index -/

theorem lookup_eq_of_mem_nodup : ∀ {runs : RunMap}, (runs.map Prod.fst).Nodup →
    ∀ {p : String × Run}, p ∈ runs → List.lookup p.1 runs = some p.2 := by
  intro runs
  induction runs with
  | nil => intro _ p hp; cases hp
  | cons q t ih =>
    intro hnd p hp
    obtain ⟨k, v⟩ := q
    rw [List.map_cons, List.nodup_cons] at hnd
    rcases List.mem_cons.mp hp with he | ht
    · rw [he]
      simp [List.lookup_cons]
    · have hne : p.1 ≠ k := by
        intro e
        apply hnd.1
        rw [← e]
        exact List.mem_map.mpr ⟨p, ht, rfl⟩
      have hbeq : (p.1 == k) = false := beq_false_of_ne hne
      simp [List.lookup_cons, hbeq, ih hnd.2 ht]

theorem filter_ne_key_length : ∀ (runs : RunMap), (runs.map Prod.fst).Nodup →
    ∀ rid, rid ∈ runs.map Prod.fst →
    (runs.filter (fun p => !(p.1 == rid))).length + 1 = runs.length := by
  intro runs
  induction runs with
  | nil => intro _ rid hmem; cases hmem
  | cons q t ih =>
    intro hnd rid hmem
    rw [List.map_cons, List.nodup_cons] at hnd
    rcases List.mem_cons.mp hmem with he | ht
    · subst he
      rw [List.filter_cons_of_neg (by simp)]
      rw [List.filter_eq_self.mpr ?_]
      · rfl
      · intro x hx
        have : x.1 ≠ q.1 := by
          intro e
          exact hnd.1 (e ▸ List.mem_map_of_mem Prod.fst hx)
        simp [beq_false_of_ne this]
    · have hne : q.1 ≠ rid := fun e => hnd.1 (e ▸ ht)
      rw [List.filter_cons_of_pos (by simp [beq_false_of_ne hne])]
      have := ih hnd.2 rid ht
      simp only [List.length_cons]
      omega

/-- C6: `delete_run_by_index` with a one-based index inside the current
category size removes exactly the run whose id is at that position of the
freshly recomputed `start_time`-descending ranking (that run is a current
member of the category, and exactly one entry leaves the map) and reports
success; an index outside the category size reports not-found and leaves
the run map exactly unchanged. -/
theorem delete_run_by_index_spec (runs : RunMap) (category : String) (k : Int)
    (h : (runs.map Prod.fst).Nodup) :
    (∀ _hk : 1 ≤ k ∧ k ≤ ((ranked_category runs category).length : Int),
      ∃ rid, (ranked_category runs category)[(k - 1).toNat]? = some rid
        ∧ delete_run_by_index runs category k
            = (runs.filter (fun p => !(p.1 == rid)), true)
        ∧ (∃ r, List.lookup rid runs = some r ∧ r.status = pyLower category)
        ∧ (delete_run_by_index runs category k).1.length + 1 = runs.length)
    ∧ (¬ (1 ≤ k ∧ k ≤ ((ranked_category runs category).length : Int)) →
        delete_run_by_index runs category k = (runs, false)) := by
  constructor
  · intro hk
    have hlt : (k - 1).toNat < (ranked_category runs category).length := by omega
    have hget : (ranked_category runs category)[(k - 1).toNat]?
        = some (ranked_category runs category)[(k - 1).toNat] :=
      List.getElem?_eq_getElem hlt
    have hdel : delete_run_by_index runs category k
        = (runs.filter
            (fun p => !(p.1 == (ranked_category runs category)[(k - 1).toNat])), true) := by
      unfold delete_run_by_index
      rw [if_pos ⟨by omega, by omega⟩, hget]
    have hmemrk : (ranked_category runs category)[(k - 1).toNat] ∈ ranked_category runs category :=
      List.getElem_mem hlt
    have hmemf : (ranked_category runs category)[(k - 1).toNat]
        ∈ (runs.filter (fun p => p.2.status == pyLower category)).map Prod.fst := by
      have := (List.mem_insertionSort (ridDescLe runs)).mp hmemrk
      exact this
    obtain ⟨p, hpf, hpk⟩ := List.mem_map.mp hmemf
    have hpm := List.mem_filter.mp hpf
    refine ⟨(ranked_category runs category)[(k - 1).toNat], hget, hdel, ⟨p.2, ?_, ?_⟩, ?_⟩
    · rw [← hpk]
      exact lookup_eq_of_mem_nodup h hpm.1
    · exact eq_of_beq hpm.2
    · rw [hdel]
      exact filter_ne_key_length runs h _ (hpk ▸ List.mem_map_of_mem Prod.fst hpm.1)
  · intro hnk
    unfold delete_run_by_index
    rw [if_neg]
    intro hcon
    exact hnk ⟨by omega, by omega⟩

theorem delete_run_by_index_witness :
    (∃ rid, (ranked_category demo2 "hanging")[((1 : Int) - 1).toNat]? = some rid
      ∧ delete_run_by_index demo2 "hanging" 1
          = (demo2.filter (fun p => !(p.1 == rid)), true)
      ∧ (∃ r, List.lookup rid demo2 = some r ∧ r.status = pyLower "hanging")
      ∧ (delete_run_by_index demo2 "hanging" 1).1.length + 1 = demo2.length)
    ∧ delete_run_by_index demo2 "hanging" 1 = ([("r1", demoHang1)], true)
    ∧ delete_run_by_index [(("r1" : String), demoHang1)] "hanging" 1 = ([], true)
    ∧ delete_run_by_index demo2 "hanging" 3 = (demo2, false) :=
  ⟨(delete_run_by_index_spec demo2 "hanging" 1 (by decide)).1 ⟨by decide, by decide⟩,
   by decide, by decide, by decide⟩

/-! ### Claim C7: categorization cap, ranking and exact totals -/

theorem charListLe_total : ∀ as bs, charListLe as bs = true ∨ charListLe bs as = true
  | [], _ => Or.inl rfl
  | _ :: _, [] => Or.inr rfl
  | a :: as, b :: bs => by
    by_cases h : a = b
    · subst h
      simpa [charListLe] using charListLe_total as bs
    · rcases lt_or_gt_of_ne h with hlt | hgt
      · exact Or.inl (by simp [charListLe, h, hlt])
      · exact Or.inr (by simp [charListLe, Ne.symm h, hgt])

theorem charListLe_trans :
    ∀ as bs cs, charListLe as bs = true → charListLe bs cs = true → charListLe as cs = true
  | [], _, _ => fun _ _ => rfl
  | _ :: _, [], _ => fun h _ => by simp [charListLe] at h
  | _ :: _, _ :: _, [] => fun _ h => by simp [charListLe] at h
  | a :: as, b :: bs, c :: cs => fun h1 h2 => by
    by_cases hab : a = b <;> by_cases hbc : b = c
    · subst hab; subst hbc
      simp only [charListLe, if_pos rfl] at h1 h2 ⊢
      exact charListLe_trans as bs cs h1 h2
    · subst hab
      simpa [charListLe, hbc] using h2
    · subst hbc
      simpa [charListLe, hab] using h1
    · simp only [charListLe, if_neg hab, decide_eq_true_eq] at h1
      simp only [charListLe, if_neg hbc, decide_eq_true_eq] at h2
      have hac : a < c := lt_trans h1 h2
      simp [charListLe, ne_of_lt hac, hac]

theorem take_sorted_spec (l : List Run) :
    ((l.insertionSort runDescLe).take 6).length = min 6 l.length
    ∧ (∀ r ∈ (l.insertionSort runDescLe).take 6, r ∈ l)
    ∧ (∀ r ∈ (l.insertionSort runDescLe).take 6,
        ∀ q ∈ (l.insertionSort runDescLe).drop 6, pyStrLe q.start_time r.start_time = true) := by
  haveI : IsTotal Run runDescLe :=
    ⟨fun a b => charListLe_total b.start_time.data a.start_time.data⟩
  haveI : IsTrans Run runDescLe :=
    ⟨fun a b c hab hbc => charListLe_trans c.start_time.data b.start_time.data
      a.start_time.data hbc hab⟩
  refine ⟨?_, ?_, ?_⟩
  · rw [List.length_take, List.length_insertionSort]
  · intro r hr
    exact (List.mem_insertionSort runDescLe).mp (List.mem_of_mem_take hr)
  · have hp : List.Pairwise runDescLe (l.insertionSort runDescLe) :=
      List.sorted_insertionSort runDescLe l
    rw [← List.take_append_drop 6 (l.insertionSort runDescLe)] at hp
    exact (List.pairwise_append.mp hp).2.2

theorem categorize_fold (runs : RunMap) : ∀ acc : Categories,
    runs.foldl categorize_step acc =
      ⟨acc.ongoing ++ category_members runs "ongoing",
       acc.hanging ++ category_members runs "hanging",
       acc.failed ++ category_members runs "failed",
       acc.completed ++ category_members runs "completed"⟩ := by
  induction runs with
  | nil => intro acc; simp [category_members]
  | cons p t ih =>
    intro acc
    rw [List.foldl_cons, ih]
    unfold categorize_step category_members
    by_cases h1 : p.2.status = "ongoing"
    · simp [h1, List.filter_cons]
    · by_cases h2 : p.2.status = "hanging"
      · simp [h1, h2, List.filter_cons]
      · by_cases h3 : p.2.status = "failed"
        · simp [h1, h2, h3, List.filter_cons]
        · by_cases h4 : p.2.status = "completed"
          · simp [h1, h2, h3, h4, List.filter_cons]
          · simp [h1, h2, h3, h4, List.filter_cons]

theorem categorize_runs_eq (runs : RunMap) :
    categorize_runs runs =
      ⟨((category_members runs "ongoing").insertionSort runDescLe).take 6,
       ((category_members runs "hanging").insertionSort runDescLe).take 6,
       ((category_members runs "failed").insertionSort runDescLe).take 6,
       ((category_members runs "completed").insertionSort runDescLe).take 6⟩ := by
  unfold categorize_runs
  rw [categorize_fold runs ⟨[], [], [], []⟩]
  simp

theorem category_members_length (runs : RunMap) (s : String) :
    (category_members runs s).length = runs.countP (fun p => p.2.status == s) := by
  unfold category_members
  rw [← List.countP_eq_length_filter, List.countP_map]
  rfl

theorem categorize_facts_aux (runs : RunMap) (s : String)
    (heq : getCategory (categorize_runs runs) s
      = ((category_members runs s).insertionSort runDescLe).take 6)
    (hlow : pyLower s = s) :
    (getCategory (categorize_runs runs) s).length ≤ 6
    ∧ (getCategory (categorize_runs runs) s).length = min 6 (total_count runs s)
    ∧ (∀ r ∈ getCategory (categorize_runs runs) s, r.status = s)
    ∧ (∀ r ∈ getCategory (categorize_runs runs) s,
        ∀ q ∈ ((category_members runs s).insertionSort runDescLe).drop 6,
          pyStrLe q.start_time r.start_time = true) := by
  obtain ⟨h1, h2, h3⟩ := take_sorted_spec (category_members runs s)
  have htc : total_count runs s = (category_members runs s).length := by
    unfold total_count
    rw [hlow, category_members_length]
  refine ⟨?_, ?_, ?_, ?_⟩
  · rw [heq, h1]
    exact Nat.min_le_left _ _
  · rw [heq, h1, htc]
  · intro r hr
    rw [heq] at hr
    have hm := h2 r hr
    unfold category_members at hm
    exact eq_of_beq (List.mem_filter.mp hm).2
  · intro r hr
    rw [heq] at hr
    exact h3 r hr

/-- C7: for each of the four statuses, `categorize_runs` returns at most the
configured cap of 6 runs — exactly `min 6 n` of them, sorted from the most
recently started (every shown run starts no earlier than every omitted run
of the same category) — while the total `n` reported alongside by the
display (`total_count`) is the exact number of runs currently holding that
status. -/
theorem categorize_caps_and_counts (runs : RunMap) (s : String)
    (hs : s ∈ ["ongoing", "hanging", "failed", "completed"]) :
    (getCategory (categorize_runs runs) s).length ≤ 6
    ∧ (getCategory (categorize_runs runs) s).length = min 6 (total_count runs s)
    ∧ (∀ r ∈ getCategory (categorize_runs runs) s, r.status = s)
    ∧ (∀ r ∈ getCategory (categorize_runs runs) s,
        ∀ q ∈ ((category_members runs s).insertionSort runDescLe).drop 6,
          pyStrLe q.start_time r.start_time = true) := by
  have hs4 : s = "ongoing" ∨ s = "hanging" ∨ s = "failed" ∨ s = "completed" := by
    simpa using hs
  rcases hs4 with h | h | h | h <;> subst h <;>
    exact categorize_facts_aux runs _ (by rw [categorize_runs_eq]; rfl) (by decide)

theorem categorize_caps_and_counts_witness :
    ("hanging" : String) ∈ ["ongoing", "hanging", "failed", "completed"] ∧
    (getCategory (categorize_runs demo2) "hanging").length = min 6 (total_count demo2 "hanging") :=
  ⟨by decide, (categorize_caps_and_counts demo2 "hanging" (by decide)).2.1⟩

/-! ### Claim C9: the monitor fires each trigger and the URL at most once -/

theorem countTrig_append (a b : List MonitorEvent) (p : String) :
    countTrig (a ++ b) p = countTrig a p + countTrig b p := by
  unfold countTrig
  rw [List.countP_append]

theorem countWandb_append (a b : List MonitorEvent) :
    countWandb (a ++ b) = countWandb a + countWandb b := by
  unfold countWandb
  rw [List.countP_append]

theorem countTrig_single (t p : String) :
    countTrig [MonitorEvent.trigger t] p = if p = t then 1 else 0 := by
  unfold countTrig
  by_cases h : p = t
  · subst h
    simp
  · simp [List.countP_cons, h, Ne.symm h]

theorem trig_scan_fold (line : String) : ∀ (T : List String)
    (acc : MonitorState × List MonitorEvent),
    ((T.foldl (trig_scan_step line) acc).1.wandb_url = acc.1.wandb_url)
    ∧ (∀ p, countTrig (T.foldl (trig_scan_step line) acc).2 p
          + (if p ∈ (T.foldl (trig_scan_step line) acc).1.seen_triggers then 0 else 1)
        = countTrig acc.2 p + (if p ∈ acc.1.seen_triggers then 0 else 1))
    ∧ countWandb (T.foldl (trig_scan_step line) acc).2 = countWandb acc.2
    ∧ (∀ u, MonitorEvent.wandb u ∈ (T.foldl (trig_scan_step line) acc).2
        ↔ MonitorEvent.wandb u ∈ acc.2)
    ∧ (∀ p, p ∈ (T.foldl (trig_scan_step line) acc).1.seen_triggers
        ↔ p ∈ acc.1.seen_triggers ∨ (p ∈ T ∧ containsSub line p = true)) := by
  intro T
  induction T with
  | nil =>
    intro acc
    exact ⟨rfl, fun p => rfl, rfl, fun u => Iff.rfl, fun p => by simp⟩
  | cons trig T ih =>
    intro acc
    rw [List.foldl_cons]
    by_cases hc : containsSub line trig = true
    · by_cases hs : trig ∈ acc.1.seen_triggers
      · have hstep : trig_scan_step line acc trig = acc := by
          unfold trig_scan_step
          rw [if_neg]
          simp [hc, hs]
        rw [hstep]
        obtain ⟨w, cnt, cw, wm, sn⟩ := ih acc
        refine ⟨w, cnt, cw, wm, fun p => ?_⟩
        rw [sn p]
        constructor
        · rintro (h | h)
          · exact Or.inl h
          · exact Or.inr ⟨List.mem_cons_of_mem _ h.1, h.2⟩
        · rintro (h | ⟨hm, hcp⟩)
          · exact Or.inl h
          · rcases List.mem_cons.mp hm with he | ht
            · exact Or.inl (by rw [he]; exact hs)
            · exact Or.inr ⟨ht, hcp⟩
      · have hstep : trig_scan_step line acc trig
            = ({ acc.1 with seen_triggers := acc.1.seen_triggers ++ [trig] },
               acc.2 ++ [MonitorEvent.trigger trig]) := by
          unfold trig_scan_step
          rw [if_pos]
          simp [hc, hs]
        rw [hstep]
        obtain ⟨w, cnt, cw, wm, sn⟩ := ih
          ({ acc.1 with seen_triggers := acc.1.seen_triggers ++ [trig] },
           acc.2 ++ [MonitorEvent.trigger trig])
        refine ⟨w, ?_, ?_, ?_, fun p => ?_⟩
        · intro p
          rw [cnt p, countTrig_append, countTrig_single]
          by_cases hpt : p = trig
          · subst hpt
            simp [hs]
          · simp [hpt, List.mem_append]
        · rw [cw, countWandb_append]
          have h0 : countWandb [MonitorEvent.trigger trig] = 0 := rfl
          rw [h0]
          omega
        · intro u
          rw [wm u, List.mem_append]
          simp
        · rw [sn p]
          simp only [List.mem_append, List.mem_cons, List.not_mem_nil, or_false]
          constructor
          · rintro ((h | h) | ⟨hT, hcp⟩)
            · exact Or.inl h
            · exact Or.inr ⟨Or.inl h, by rw [h]; exact hc⟩
            · exact Or.inr ⟨Or.inr hT, hcp⟩
          · rintro (h | ⟨(he | hT), hcp⟩)
            · exact Or.inl (Or.inl h)
            · exact Or.inl (Or.inr he)
            · exact Or.inr ⟨hT, hcp⟩
    · have hstep : trig_scan_step line acc trig = acc := by
        unfold trig_scan_step
        rw [if_neg]
        simp [hc]
      rw [hstep]
      obtain ⟨w, cnt, cw, wm, sn⟩ := ih acc
      refine ⟨w, cnt, cw, wm, fun p => ?_⟩
      rw [sn p]
      constructor
      · rintro (h | h)
        · exact Or.inl h
        · exact Or.inr ⟨List.mem_cons_of_mem _ h.1, h.2⟩
      · rintro (h | ⟨hm, hcp⟩)
        · exact Or.inl h
        · rcases List.mem_cons.mp hm with he | ht
          · exact absurd (by rw [← he]; exact hcp) hc
          · exact Or.inr ⟨ht, hcp⟩

theorem check_triggers_spec (T : List String) (line : String) (st : MonitorState) :
    (check_triggers T line st).1.wandb_url = st.wandb_url
    ∧ (∀ p, countTrig (check_triggers T line st).2 p
          + (if p ∈ (check_triggers T line st).1.seen_triggers then 0 else 1)
        = (if p ∈ st.seen_triggers then 0 else 1))
    ∧ countWandb (check_triggers T line st).2 = 0
    ∧ (∀ u, MonitorEvent.wandb u ∉ (check_triggers T line st).2)
    ∧ (∀ p, p ∈ (check_triggers T line st).1.seen_triggers
        ↔ p ∈ st.seen_triggers ∨ (p ∈ T ∧ containsSub line p = true)) := by
  obtain ⟨w, cnt, cw, wm, sn⟩ := trig_scan_fold line T (st, [])
  refine ⟨w, fun p => ?_, cw, fun u => ?_, sn⟩
  · have := cnt p
    simpa [countTrig] using this
  · intro hcon
    simp at wm
    exact (wm u) hcon

theorem process_line_wandb_some (T : List String) (mu : String → Option String)
    (st : MonitorState) (line u : String)
    (hmw : (check_triggers T line st).1.wandb_url = some u) :
    process_line T mu st line
      = ({ (check_triggers T line st).1 with wandb_url := some u },
         (check_triggers T line st).2) := by
  unfold process_line
  simp only [hmw]

theorem process_line_none_some (T : List String) (mu : String → Option String)
    (st : MonitorState) (line u : String)
    (hmw : (check_triggers T line st).1.wandb_url = none) (hmu : mu line = some u) :
    process_line T mu st line
      = ({ (check_triggers T line st).1 with wandb_url := some u },
         (check_triggers T line st).2 ++ [MonitorEvent.wandb u]) := by
  unfold process_line
  simp only [hmw, hmu]

theorem process_line_none_none (T : List String) (mu : String → Option String)
    (st : MonitorState) (line : String)
    (hmw : (check_triggers T line st).1.wandb_url = none) (hmu : mu line = none) :
    process_line T mu st line = check_triggers T line st := by
  unfold process_line
  simp only [hmw, hmu]

theorem process_line_seen (T : List String) (mu : String → Option String)
    (st : MonitorState) (line : String) :
    (process_line T mu st line).1.seen_triggers
      = (check_triggers T line st).1.seen_triggers := by
  cases hmw : (check_triggers T line st).1.wandb_url with
  | some u => rw [process_line_wandb_some T mu st line u hmw]
  | none =>
    cases hmu : mu line with
    | some u => rw [process_line_none_some T mu st line u hmw hmu]
    | none => rw [process_line_none_none T mu st line hmw hmu]

theorem monitorInv_step (T : List String) (mu : String → Option String)
    (st : MonitorState) (evs : List MonitorEvent) (line : String)
    (h : monitorInv (st, evs)) :
    monitorInv ((process_line T mu st line).1, evs ++ (process_line T mu st line).2) := by
  obtain ⟨hc, hw, hm⟩ := h
  obtain ⟨w, cnt, cw, wnm, sn⟩ := check_triggers_spec T line st
  have hcnt2 : ∀ p, countTrig (evs ++ (check_triggers T line st).2) p
      = if p ∈ (check_triggers T line st).1.seen_triggers then 1 else 0 := by
    intro p
    rw [countTrig_append]
    have h1 := hc p
    have h2 := cnt p
    by_cases hp1 : p ∈ st.seen_triggers <;>
      by_cases hp2 : p ∈ (check_triggers T line st).1.seen_triggers <;>
      simp only [hp1, hp2, if_pos, if_neg, not_false_iff] at h1 h2 ⊢ <;>
      simp at h1 h2 ⊢ <;> omega
  cases hmw : (check_triggers T line st).1.wandb_url with
  | some u =>
    rw [process_line_wandb_some T mu st line u hmw]
    have hstu : st.wandb_url = some u := w.symm.trans hmw
    refine ⟨fun p => hcnt2 p, ?_, fun u2 => ?_⟩
    · rw [countWandb_append, cw, hw, hstu]
      rfl
    · rw [List.mem_append]
      constructor
      · rintro (hin | hin)
        · have := (hm u2).mp hin
          rw [hstu] at this
          exact this
        · exact absurd hin (wnm u2)
      · intro he
        exact Or.inl ((hm u2).mpr (hstu.trans he))
  | none =>
    have hstu : st.wandb_url = none := w.symm.trans hmw
    cases hmu : mu line with
    | some u =>
      rw [process_line_none_some T mu st line u hmw hmu]
      refine ⟨fun p => ?_, ?_, fun u2 => ?_⟩
      · show countTrig (evs ++ ((check_triggers T line st).2 ++ [MonitorEvent.wandb u])) p
            = if p ∈ (check_triggers T line st).1.seen_triggers then 1 else 0
        rw [← List.append_assoc, countTrig_append, hcnt2 p]
        have h0 : countTrig [MonitorEvent.wandb u] p = 0 := rfl
        rw [h0]
        omega
      · show countWandb (evs ++ ((check_triggers T line st).2 ++ [MonitorEvent.wandb u]))
            = if (some u : Option String).isSome = true then 1 else 0
        rw [← List.append_assoc, countWandb_append, countWandb_append, cw, hw, hstu]
        rfl
      · show MonitorEvent.wandb u2
            ∈ evs ++ ((check_triggers T line st).2 ++ [MonitorEvent.wandb u])
            ↔ (some u : Option String) = some u2
        rw [← List.append_assoc, List.mem_append, List.mem_append]
        constructor
        · rintro ((hin | hin) | hin)
          · rw [(hm u2).mp hin] at hstu
            cases hstu
          · exact absurd hin (wnm u2)
          · rw [List.mem_singleton, MonitorEvent.wandb.injEq] at hin
            rw [hin]
        · intro he
          rw [Option.some.injEq] at he
          refine Or.inr ?_
          rw [List.mem_singleton, MonitorEvent.wandb.injEq]
          exact he.symm
    | none =>
      rw [process_line_none_none T mu st line hmw hmu]
      refine ⟨fun p => hcnt2 p, ?_, fun u2 => ?_⟩
      · rw [countWandb_append, cw, hw, hstu, hmw]
        rfl
      · rw [List.mem_append, hmw]
        constructor
        · rintro (hin | hin)
          · rw [(hm u2).mp hin] at hstu
            cases hstu
          · exact absurd hin (wnm u2)
        · intro he
          cases he

theorem monitor_fold_inv (T : List String) (mu : String → Option String) :
    ∀ (lines : List String) (acc : MonitorState × List MonitorEvent),
    monitorInv acc → monitorInv (lines.foldl (monitor_step T mu) acc) := by
  intro lines
  induction lines with
  | nil => intro acc h; exact h
  | cons l ls ih =>
    intro acc h
    rw [List.foldl_cons]
    exact ih _ (monitorInv_step T mu acc.1 acc.2 l h)

theorem monitor_fold_seen (T : List String) (mu : String → Option String) :
    ∀ (lines : List String) (acc : MonitorState × List MonitorEvent) (p : String),
    (p ∈ (lines.foldl (monitor_step T mu) acc).1.seen_triggers
      ↔ p ∈ acc.1.seen_triggers ∨ (p ∈ T ∧ ∃ l ∈ lines, containsSub l p = true)) := by
  intro lines
  induction lines with
  | nil => intro acc p; simp
  | cons l ls ih =>
    intro acc p
    rw [List.foldl_cons, ih]
    have hseen : (monitor_step T mu acc l).1.seen_triggers
        = (check_triggers T l acc.1).1.seen_triggers := process_line_seen T mu acc.1 l
    rw [hseen, (check_triggers_spec T l acc.1).2.2.2.2 p]
    constructor
    · rintro ((h | ⟨hT, hcp⟩) | ⟨hT, lx, hlx, hcx⟩)
      · exact Or.inl h
      · exact Or.inr ⟨hT, l, List.mem_cons_self l ls, hcp⟩
      · exact Or.inr ⟨hT, lx, List.mem_cons_of_mem l hlx, hcx⟩
    · rintro (h | ⟨hT, lx, hlx, hcx⟩)
      · exact Or.inl (Or.inl h)
      · rcases List.mem_cons.mp hlx with he | ht
        · exact Or.inl (Or.inr ⟨hT, by rw [← he]; exact hcx⟩)
        · exact Or.inr ⟨hT, lx, ht, hcx⟩

theorem monitor_fold_wandb_some (T : List String) (mu : String → Option String) :
    ∀ (lines : List String) (acc : MonitorState × List MonitorEvent) (u : String),
    acc.1.wandb_url = some u →
    (lines.foldl (monitor_step T mu) acc).1.wandb_url = some u := by
  intro lines
  induction lines with
  | nil => intro acc u h; exact h
  | cons l ls ih =>
    intro acc u h
    rw [List.foldl_cons]
    apply ih
    have hmw : (check_triggers T l acc.1).1.wandb_url = some u :=
      (check_triggers_spec T l acc.1).1.trans h
    show (process_line T mu acc.1 l).1.wandb_url = some u
    rw [process_line_wandb_some T mu acc.1 l u hmw]

theorem monitor_fold_wandb (T : List String) (mu : String → Option String) :
    ∀ (lines : List String) (st : MonitorState) (evs : List MonitorEvent),
    st.wandb_url = none →
    ((lines.foldl (monitor_step T mu) (st, evs)).1.wandb_url
      = (lines.find? (fun l => (mu l).isSome)).bind mu) := by
  intro lines
  induction lines with
  | nil => intro st evs h; exact h
  | cons l ls ih =>
    intro st evs h
    rw [List.foldl_cons, List.find?_cons]
    have hmw : (check_triggers T l st).1.wandb_url = none :=
      (check_triggers_spec T l st).1.trans h
    cases hmu : mu l with
    | some u =>
      have hstep : (monitor_step T mu (st, evs) l).1.wandb_url = some u := by
        show (process_line T mu st l).1.wandb_url = some u
        rw [process_line_none_some T mu st l u hmw hmu]
      rw [monitor_fold_wandb_some T mu ls _ u hstep]
      simp [hmu]
    | none =>
      have hstep : (monitor_step T mu (st, evs) l).1.wandb_url = none := by
        show (process_line T mu st l).1.wandb_url = none
        rw [process_line_none_none T mu st l hmw hmu]
        exact hmw
      have hres := ih (monitor_step T mu (st, evs) l).1
        (monitor_step T mu (st, evs) l).2 hstep
      rw [show ((monitor_step T mu (st, evs) l).1, (monitor_step T mu (st, evs) l).2)
            = monitor_step T mu (st, evs) l from rfl] at hres
      rw [hres]
      simp [hmu]

/-- C9: over any sequence of output lines, each configured trigger phrase
causes at most one trigger event — it fires exactly when the phrase is
configured and some line contains it — and the side-channel URL event is
emitted at most once, carrying exactly the value extracted from the first
line matching the URL pattern (`matchUrl` abstracts the regular-expression
search of notify.py line 106). -/
theorem monitor_dedups_triggers_and_url (triggers : List String)
    (matchUrl : String → Option String) (lines : List String) :
    (∀ p, countTrig (monitor_output_and_process triggers matchUrl lines).2 p ≤ 1)
    ∧ countWandb (monitor_output_and_process triggers matchUrl lines).2 ≤ 1
    ∧ (∀ p, MonitorEvent.trigger p ∈ (monitor_output_and_process triggers matchUrl lines).2
        ↔ p ∈ triggers ∧ ∃ l ∈ lines, containsSub l p = true)
    ∧ (∀ u, MonitorEvent.wandb u ∈ (monitor_output_and_process triggers matchUrl lines).2
        ↔ (lines.find? (fun l => (matchUrl l).isSome)).bind matchUrl = some u) := by
  have h0 : monitorInv ((⟨[], none⟩ : MonitorState), ([] : List MonitorEvent)) := by
    refine ⟨fun p => by simp [countTrig], by simp [countWandb], fun u => by simp⟩
  have hinv := monitor_fold_inv triggers matchUrl lines (⟨[], none⟩, []) h0
  obtain ⟨hc, hw, hm⟩ := hinv
  have hfold : monitor_output_and_process triggers matchUrl lines
      = lines.foldl (monitor_step triggers matchUrl) (⟨[], none⟩, []) := rfl
  refine ⟨fun p => ?_, ?_, fun p => ?_, fun u => ?_⟩
  · rw [hfold, hc p]
    split <;> omega
  · rw [hfold, hw]
    split <;> omega
  · rw [hfold]
    constructor
    · intro hin
      have hpos : 0 < countTrig (lines.foldl (monitor_step triggers matchUrl)
          (⟨[], none⟩, [])).2 p := by
        unfold countTrig
        rw [List.countP_pos_iff]
        exact ⟨MonitorEvent.trigger p, hin, by simp⟩
      rw [hc p] at hpos
      by_cases hseen : p ∈ (lines.foldl (monitor_step triggers matchUrl)
          (⟨[], none⟩, [])).1.seen_triggers
      · have := (monitor_fold_seen triggers matchUrl lines (⟨[], none⟩, []) p).mp hseen
        rcases this with h | h
        · cases h
        · exact h
      · rw [if_neg hseen] at hpos
        omega
    · intro hex
      have hseen : p ∈ (lines.foldl (monitor_step triggers matchUrl)
          (⟨[], none⟩, [])).1.seen_triggers :=
        (monitor_fold_seen triggers matchUrl lines (⟨[], none⟩, []) p).mpr (Or.inr hex)
      have hpos : 0 < countTrig (lines.foldl (monitor_step triggers matchUrl)
          (⟨[], none⟩, [])).2 p := by
        rw [hc p, if_pos hseen]
        omega
      unfold countTrig at hpos
      rw [List.countP_pos_iff] at hpos
      obtain ⟨e, he, hde⟩ := hpos
      rw [decide_eq_true_eq] at hde
      rw [← hde]
      exact he
  · rw [hfold, hm u,
      monitor_fold_wandb triggers matchUrl lines ⟨[], none⟩ [] rfl]

/-! ### Claim C10: persist-then-reload round trip -/

theorem decodeStrList_map (l : List String) :
    decodeStrList (l.map Json.str) = some l := by
  induction l with
  | nil => rfl
  | cons a t ih => simp [decodeStrList, ih]

theorem jsonToOptStr_optStrToJson (o : Option String) :
    jsonToOptStr (optStrToJson o) = some o := by
  cases o <;> rfl

theorem fromJson_toJson (r : Run) : Run.fromJson (Run.toJson r) = some r := by
  obtain ⟨rid, cmd, mach, tmux, cwd, stt, st, trig, ec, wu, sct, et⟩ := r
  cases tmux <;> cases ec <;> cases wu <;> cases sct <;> cases et <;>
    simp [Run.toJson, Run.fromJson, Json.getField, Json.asStr, jsonToOptStr,
      optStrToJson, decodeStrList_map, List.find?]

theorem decodeRunEntries_map (runs : RunMap) :
    decodeRunEntries Run.fromJson (runs.map (fun p => (p.1, p.2.toJson))) = some runs := by
  induction runs with
  | nil => rfl
  | cons p t ih =>
    obtain ⟨k, v⟩ := p
    simp [decodeRunEntries, fromJson_toJson, ih]

/-- C10: persisting the run map with `save_state` and reloading the written
document with `load_state` reproduces exactly the persisted run map. -/
theorem save_load_roundtrip (runs : RunMap) :
    load_state (save_state runs) = some runs := by
  unfold save_state load_state
  show decodeRunEntries Run.fromJson (runs.map (fun p => (p.1, p.2.toJson))) = some runs
  exact decodeRunEntries_map runs
